import Mathlib

/-!
Shallow embedding of the in-game console implemented in
`src/openrct2-ui/interface/InGameConsole.cpp` (OpenRCT2).

Strings (`std::string`, C `char` buffers) are modelled as `List Char`; the
terminating NUL of a C buffer is implicit (an empty list is a buffer whose
first byte is the terminator).  Machine integers (`int32_t`) are modelled as
`Int`; the only division that occurs (`GetNumVisibleLines`) uses `Int.tdiv`,
which matches C++ `/` (truncation toward zero).  Overflow of `int32_t` is
irrelevant for the quantities involved (line counts, scroll offsets).

External collaborators are modelled as follows:
* the font metric `InGameConsoleGetLineHeight()` is an explicit parameter
  `lh : Int` of every operation that reads it;
* the text-measurement call `GfxGetStringWidthNoFormatting` is an explicit
  parameter `mw : List Char → Int`;
* the command interpreter `InteractiveConsole::Execute` only has side effects
  outside this unit; the embedding records each invocation in the `executed`
  trace field;
* the text-input session bookkeeping (`ContextStartTextInput`,
  `_consoleTextInputSession->Size/Length/SelectionStart`) belongs to the
  external text-input capture collaborator and has no effect on console
  state, so it is not part of the state.

The header constants `CONSOLE_HISTORY_SIZE` and `CONSOLE_MAX_LINES` are not
part of the translated source file; they are fixed positive constants, taken
here as parameters `N` and `MAX` of the operations that read them.
-/

namespace InGameConsole

/-- Strings are byte/character lists. -/
abbrev Str : Type := List Char

/-- The colour format tokens relevant to the console (`FormatToken` in the
source; the full enum lives outside this unit, only the default
`ColourWindow2` is distinguished by the console code, and we keep two of the
special colours used by console output as representatives). -/
inductive FormatToken where
  | ColourWindow2
  | ColourRed
  | ColourYellow
  deriving DecidableEq

/-- The console input events (`ConsoleInput` in the source).  `Other`
stands for any event hitting the `default:` arm of `InGameConsole::Input`. -/
inductive ConsoleInput where
  | LineClear
  | LineExecute
  | HistoryPrevious
  | HistoryNext
  | ScrollPrevious
  | ScrollNext
  | Other
  deriving DecidableEq

/-- The mutable state of `InGameConsole`.  Geometry is recorded through the
vertical coordinates only, which are the only coordinates the translated
operations read. -/
structure ConsoleState where
  /-- `_consoleLines` : the scrollback lines. -/
  consoleLines : List Str
  /-- `_consoleCurrentLine` : the line being typed. -/
  consoleCurrentLine : Str
  /-- `_consoleHistory` (first `_consoleHistoryCount` slots). -/
  consoleHistory : List Str
  /-- `_consoleHistoryIndex` : the recall cursor, in `[0, length]`. -/
  consoleHistoryIndex : Nat
  /-- `_consoleScrollPos`. -/
  consoleScrollPos : Int
  /-- `_consoleCaretTicks` : blink phase counter. -/
  consoleCaretTicks : Int
  /-- `_selectionStart`. -/
  selectionStart : Nat
  /-- `_caretScreenPosX`. -/
  caretScreenPosX : Int
  /-- `_consoleTopLeft.y`. -/
  consoleTopLeftY : Int
  /-- `_consoleBottomRight.y`. -/
  consoleBottomRightY : Int
  /-- Trace of the arguments of the external `Execute` calls, newest last. -/
  executed : List Str
  deriving DecidableEq

/-- The characters of the literal `"{WINDOW_COLOUR_2}"` used by
`InGameConsole::WriteLine` (braces written via `Char.ofNat`). -/
def windowColour2Tag : Str :=
  Char.ofNat 123 ::
    'W' :: 'I' :: 'N' :: 'D' :: 'O' :: 'W' :: '_' ::
    'C' :: 'O' :: 'L' :: 'O' :: 'U' :: 'R' :: '_' :: '2' ::
    [Char.ofNat 125]

/-- The `colourCodepoint` local of `InGameConsole::WriteLine`: empty for the
default window colour, the `WINDOW_COLOUR_2` tag for every other token. -/
def colourCodepoint (colourFormat : FormatToken) : Str :=
  if colourFormat ≠ FormatToken.ColourWindow2 then windowColour2Tag else []

/-- The newline-splitting loop of `InGameConsole::WriteLine`
(`find('\n')` / `substr` until `npos`): split on every `'\n'`, keeping empty
segments, including a trailing one; the empty string yields one empty
segment. -/
def splitNL : Str → List Str
  | [] => [[]]
  | c :: cs =>
      if c = '\n' then [] :: splitNL cs
      else
        match splitNL cs with
        | [] => [[c]]
        | seg :: rest => (c :: seg) :: rest

/-- The last `n` elements of a list (helper used to phrase front-eviction). -/
def takeLast (n : Nat) (l : List α) : List α :=
  l.drop (l.length - n)

/-- `InGameConsole::GetNumVisibleLines`.  `lh` is the external line height.
Note the C++ `/` on `int32_t` truncates toward zero, hence `Int.tdiv`. -/
def GetNumVisibleLines (lh : Int) (s : ConsoleState) : Int :=
  let consoleHeight := s.consoleBottomRightY - s.consoleTopLeftY
  if consoleHeight = 0 then 0
  else Int.tdiv (consoleHeight - 2 * lh - 4) lh

/-- The visible-line count as the specification words it: floor division,
clamped to be nonnegative, and 0 for an unsized console. -/
def visibleLineCountSpec (lh : Int) (s : ConsoleState) : Int :=
  let consoleHeight := s.consoleBottomRightY - s.consoleTopLeftY
  if consoleHeight = 0 then 0
  else max 0 (Int.fdiv (consoleHeight - 2 * lh - 4) lh)

/-- `InGameConsole::ScrollToEnd`. -/
def ScrollToEnd (lh : Int) (s : ConsoleState) : ConsoleState :=
  let maxLines := GetNumVisibleLines lh s
  if maxLines = 0 then { s with consoleScrollPos := 0 }
  else { s with consoleScrollPos := max 0 ((s.consoleLines.length : Int) - maxLines) }

/-- `InGameConsole::Scroll`.  `std::clamp(v, 0, hi)` is `min hi (max 0 v)`
(here `0 ≤ hi` because the branch requires `maxVisibleLines < numLines`). -/
def Scroll (lh : Int) (linesToScroll : Int) (s : ConsoleState) : ConsoleState :=
  let maxVisibleLines := GetNumVisibleLines lh s
  let numLines : Int := s.consoleLines.length
  if maxVisibleLines < numLines then
    let maxScrollValue := numLines - maxVisibleLines
    { s with consoleScrollPos := min maxScrollValue (max 0 (s.consoleScrollPos - linesToScroll)) }
  else s

/-- `InGameConsole::RefreshCaret`.  `mw` is the external
`GfxGetStringWidthNoFormatting`; the measured string is the first
`position` bytes of the current line. -/
def RefreshCaret (mw : Str → Int) (position : Nat) (s : ConsoleState) : ConsoleState :=
  { s with
      consoleCaretTicks := 0
      selectionStart := position
      caretScreenPosX := mw (s.consoleCurrentLine.take position) }

/-- `InGameConsole::ClearInput`.  The `ContextStartTextInput` restart is an
external text-capture effect with no bearing on console state. -/
def ClearInput (s : ConsoleState) : ConsoleState :=
  { s with consoleCurrentLine := [] }

/-- `InGameConsole::HistoryAdd` with `CONSOLE_HISTORY_SIZE = N`: when the
ring is full, shift every entry one slot toward index 0 (dropping the
oldest) before appending, then point the recall cursor one past the newest
entry. -/
def HistoryAdd (N : Nat) (src : Str) (s : ConsoleState) : ConsoleState :=
  let hist :=
    if N ≤ s.consoleHistory.length then s.consoleHistory.drop 1 else s.consoleHistory
  { s with
      consoleHistory := hist ++ [src]
      consoleHistoryIndex := hist.length + 1 }

/-- `InGameConsole::WriteLine` with `CONSOLE_MAX_LINES = MAX`: append one
scrollback line per newline-delimited segment (each prefixed with the colour
codepoint), then erase `size − MAX` lines from the front when over the
cap. -/
def WriteLine (MAX : Nat) (inputStr : Str) (colourFormat : FormatToken)
    (s : ConsoleState) : ConsoleState :=
  let newLines :=
    s.consoleLines ++ (splitNL inputStr).map (fun line => colourCodepoint colourFormat ++ line)
  if MAX < newLines.length then
    { s with consoleLines := newLines.drop (newLines.length - MAX) }
  else
    { s with consoleLines := newLines }

/-- `InGameConsole::WritePrompt`.  Modelled from the spec: the one-argument
`InteractiveConsole::WriteLine` overload (declared outside this unit)
forwards to the two-argument version with the default window colour, per the
spec's default-colour prompt behaviour. -/
def WritePrompt (MAX : Nat) (s : ConsoleState) : ConsoleState :=
  WriteLine MAX ['>', ' '] FormatToken.ColourWindow2 s

/-- Modelled from the spec: `InteractiveConsole::Execute` is the external
command interpreter ("execute(line)"), invoked for its side effects only;
the embedding records the invocation in the trace. -/
def ExecuteCmd (cmd : Str) (s : ConsoleState) : ConsoleState :=
  { s with executed := s.executed ++ [cmd] }

/-- The statement `_consoleLines.back().append(_consoleCurrentLine)` of the
`LineExecute` arm: append `t` to the most recent scrollback line. -/
def AppendToLastLine (t : Str) (s : ConsoleState) : ConsoleState :=
  { s with consoleLines := s.consoleLines.dropLast ++ [s.consoleLines.getLastD [] ++ t] }

/-- `InGameConsole::Input`, arm by arm as in the source.
`N`/`MAX` are the header capacities, `lh` the external line height, `mw`
the external text-measurement function. -/
def Input (N MAX : Nat) (lh : Int) (mw : Str → Int)
    (ev : ConsoleInput) (s : ConsoleState) : ConsoleState :=
  match ev with
  | ConsoleInput.LineClear =>
      RefreshCaret mw 0 (ClearInput s)
  | ConsoleInput.LineExecute =>
      let s' :=
        if s.consoleCurrentLine ≠ [] then
          let s1 := HistoryAdd N s.consoleCurrentLine s
          let s2 := AppendToLastLine s1.consoleCurrentLine s1
          let s3 := ExecuteCmd s2.consoleCurrentLine s2
          let s4 := WritePrompt MAX s3
          let s5 := ClearInput s4
          RefreshCaret mw 0 s5
        else s
      ScrollToEnd lh s'
  | ConsoleInput.HistoryPrevious =>
      if 0 < s.consoleHistoryIndex then
        { s with
            consoleHistoryIndex := s.consoleHistoryIndex - 1
            consoleCurrentLine :=
              s.consoleHistory.getD (s.consoleHistoryIndex - 1) [] }
      else s
  | ConsoleInput.HistoryNext =>
      if s.consoleHistoryIndex < s.consoleHistory.length - 1 then
        { s with
            consoleHistoryIndex := s.consoleHistoryIndex + 1
            consoleCurrentLine :=
              s.consoleHistory.getD (s.consoleHistoryIndex + 1) [] }
      else
        ClearInput { s with consoleHistoryIndex := s.consoleHistory.length }
  | ConsoleInput.ScrollPrevious =>
      Scroll lh (GetNumVisibleLines lh s - 1) s
  | ConsoleInput.ScrollNext =>
      Scroll lh (-(GetNumVisibleLines lh s - 1)) s
  | ConsoleInput.Other => s

/-- The scroll-offset invariant of the spec's ViewportState:
`0 ≤ scrollOffset ≤ max 0 (totalLines − visibleLineCount())`. -/
def scrollInv (lh : Int) (s : ConsoleState) : Prop :=
  0 ≤ s.consoleScrollPos ∧
    s.consoleScrollPos ≤ max 0 ((s.consoleLines.length : Int) - GetNumVisibleLines lh s)

/-- A console state with everything zeroed/empty. -/
def emptyState : ConsoleState :=
  { consoleLines := []
    consoleCurrentLine := []
    consoleHistory := []
    consoleHistoryIndex := 0
    consoleScrollPos := 0
    consoleCaretTicks := 0
    selectionStart := 0
    caretScreenPosX := 0
    consoleTopLeftY := 0
    consoleBottomRightY := 0
    executed := [] }

/-! Helper lemmas about `splitNL` and `takeLast`. -/

theorem splitNL_ne_nil (l : Str) : splitNL l ≠ [] := by
  induction l with
  | nil => simp [splitNL]
  | cons c cs ih =>
    by_cases hc : c = '\n'
    · simp [splitNL, hc]
    · cases h : splitNL cs with
      | nil => exact absurd h ih
      | cons seg rest => simp [splitNL, hc, h]

theorem length_splitNL (l : Str) : (splitNL l).length = l.count '\n' + 1 := by
  induction l with
  | nil => simp [splitNL]
  | cons c cs ih =>
    by_cases hc : c = '\n'
    · simp [splitNL, hc, List.count_cons, ih]
    · cases h : splitNL cs with
      | nil => exact absurd h (splitNL_ne_nil cs)
      | cons seg rest =>
        rw [h] at ih
        simp only [List.length_cons] at ih
        simp [splitNL, hc, h, List.count_cons, beq_iff_eq, ih]

theorem splitNL_append_newline (ys : Str) :
    splitNL (ys ++ ['\n']) = splitNL ys ++ [[]] := by
  induction ys with
  | nil => simp [splitNL]
  | cons c ys ih =>
    by_cases hc : c = '\n'
    · simp [splitNL, hc, ih]
    · cases h : splitNL ys with
      | nil => exact absurd h (splitNL_ne_nil ys)
      | cons seg rest => simp [splitNL, hc, ih, h]

theorem length_takeLast (n : Nat) (l : List α) :
    (takeLast n l).length = min n l.length := by
  simp [takeLast]
  omega

theorem takeLast_eq_self (n : Nat) (l : List α) (h : l.length ≤ n) :
    takeLast n l = l := by
  simp [takeLast, Nat.sub_eq_zero_of_le h]

theorem takeLast_append_of_le (n : Nat) (l₁ l₂ : List α) (h : n ≤ l₂.length) :
    takeLast n (l₁ ++ l₂) = takeLast n l₂ := by
  unfold takeLast
  rw [List.length_append]
  have heq : l₁.length + l₂.length - n = l₁.length + (l₂.length - n) := by omega
  rw [heq, List.drop_append]

theorem takeLast_append_takeLast (n : Nat) (A B : List α) :
    takeLast n (takeLast n A ++ B) = takeLast n (A ++ B) := by
  rcases le_or_lt A.length n with h | h
  · rw [takeLast_eq_self n A h]
  · have hA : A.take (A.length - n) ++ A.drop (A.length - n) = A :=
      List.take_append_drop _ A
    have hlen : n ≤ (takeLast n A ++ B).length := by
      rw [List.length_append, length_takeLast]
      omega
    calc takeLast n (takeLast n A ++ B)
        = takeLast n (A.take (A.length - n) ++ (takeLast n A ++ B)) :=
          (takeLast_append_of_le n _ _ hlen).symm
      _ = takeLast n (A ++ B) := by
          rw [← List.append_assoc]
          unfold takeLast
          rw [hA]

theorem takeLast_concat_getLast? (n : Nat) (hn : 0 < n) (l : List α) (x : α) :
    (takeLast n (l ++ [x])).getLast? = some x := by
  unfold takeLast
  have hd : (l ++ [x]).length - n ≤ l.length := by
    rw [List.length_append]
    simp
    omega
  rw [List.drop_append_of_le_length hd, List.getLast?_concat]

/-- The scrollback after `WriteLine`: the last `MAX` elements of the old
lines followed by the freshly appended segments; all other fields are
untouched. -/
theorem WriteLine_eq (MAX : Nat) (inp : Str) (tok : FormatToken) (s : ConsoleState) :
    WriteLine MAX inp tok s =
      { s with consoleLines := takeLast MAX (s.consoleLines ++ (splitNL inp).map (fun seg => colourCodepoint tok ++ seg)) } := by
  unfold WriteLine takeLast
  dsimp only []
  split
  · rfl
  · rename_i h
    rw [Nat.sub_eq_zero_of_le (Nat.le_of_not_lt h), List.drop_zero]

/-- `GetNumVisibleLines` only reads the vertical geometry. -/
theorem GetNumVisibleLines_eq_of_geom (lh : Int) {s t : ConsoleState}
    (h1 : t.consoleTopLeftY = s.consoleTopLeftY)
    (h2 : t.consoleBottomRightY = s.consoleBottomRightY) :
    GetNumVisibleLines lh t = GetNumVisibleLines lh s := by
  unfold GetNumVisibleLines
  rw [h1, h2]

/-! Claim C2. -/

/-- Claim C2 is false as stated: at console height 10 and line height 10 the
code returns `(10 − 20 − 4) / 10 = −1` (C++ division truncates toward zero
and the result is not clamped), while the spec formula — floor division
clamped to be nonnegative — gives `0`. -/
theorem C2_counterexample :
    ¬ (GetNumVisibleLines 10 { emptyState with consoleBottomRightY := 10 } =
        visibleLineCountSpec 10 { emptyState with consoleBottomRightY := 10 }) := by
  decide

/-- Claim C2 (amended): for a positive line height, `GetNumVisibleLines`
returns 0 when the console height is 0, and whenever the console is at
least as tall as the fixed chrome (`2*lineHeight + 4 ≤ consoleHeight`) it
equals the floor of `(consoleHeight − 2*lineHeight − 4) / lineHeight` and is
nonnegative, so no clamping is needed there; for smaller nonzero heights the
code truncates toward zero and performs no clamping (see the
counterexample). -/
theorem C2_visibleLines_amended (lh : Int) (hlh : 0 < lh) (s : ConsoleState) :
    (s.consoleBottomRightY - s.consoleTopLeftY = 0 → GetNumVisibleLines lh s = 0) ∧
    (2 * lh + 4 ≤ s.consoleBottomRightY - s.consoleTopLeftY →
      GetNumVisibleLines lh s =
          Int.fdiv (s.consoleBottomRightY - s.consoleTopLeftY - 2 * lh - 4) lh ∧
        0 ≤ GetNumVisibleLines lh s) := by
  constructor
  · intro h
    simp [GetNumVisibleLines, h]
  · intro h
    have hne : ¬ (s.consoleBottomRightY - s.consoleTopLeftY = 0) := by omega
    have hnum : 0 ≤ s.consoleBottomRightY - s.consoleTopLeftY - 2 * lh - 4 := by omega
    constructor
    · simp only [GetNumVisibleLines, hne, if_false]
      exact (Int.fdiv_eq_tdiv hnum (le_of_lt hlh)).symm
    · simp only [GetNumVisibleLines, hne, if_false]
      exact Int.tdiv_nonneg hnum (le_of_lt hlh)

/-- Claim C2 witness: the spec scenario — console height 322, line height
10 — gives 29 visible lines, via the amended theorem. -/
theorem C2_visibleLines_amended_witness :
    GetNumVisibleLines 10 { emptyState with consoleBottomRightY := 322 } = 29 ∧
    0 ≤ GetNumVisibleLines 10 { emptyState with consoleBottomRightY := 322 } :=
  ⟨by decide,
    ((C2_visibleLines_amended 10 (by decide)
        { emptyState with consoleBottomRightY := 322 }).2 (by decide)).2⟩

/-! Claim C9. -/

/-- Claim C9: `WriteLine` splits the text on newline characters and appends
one scrollback line per segment (stated below the cap, so the append is
verbatim); each segment carries the colour codepoint of the supplied tag,
and that codepoint is empty exactly for the default window colour. -/
theorem C9_writeLine_split (MAX : Nat) (inp : Str) (tok : FormatToken) (s : ConsoleState)
    (h : s.consoleLines.length + (splitNL inp).length ≤ MAX) :
    (WriteLine MAX inp tok s).consoleLines =
        s.consoleLines ++ (splitNL inp).map (fun seg => colourCodepoint tok ++ seg) ∧
    (colourCodepoint tok = [] ↔ tok = FormatToken.ColourWindow2) := by
  constructor
  · have hlen :
        (s.consoleLines ++ (splitNL inp).map (fun seg => colourCodepoint tok ++ seg)).length
          ≤ MAX := by
      simp only [List.length_append, List.length_map]
      exact h
    rw [WriteLine_eq]
    exact takeLast_eq_self _ _ hlen
  · cases tok <;> decide

/-- Claim C9 witness: writing `"hello\nworld"` with the default colour
appends exactly the two untagged lines `"hello"` and `"world"`. -/
theorem C9_writeLine_split_witness :
    (WriteLine 300 ['h', 'e', 'l', 'l', 'o', '\n', 'w', 'o', 'r', 'l', 'd']
        FormatToken.ColourWindow2 emptyState).consoleLines =
      [['h', 'e', 'l', 'l', 'o'], ['w', 'o', 'r', 'l', 'd']] ∧
    (colourCodepoint FormatToken.ColourWindow2 = [] ↔
      FormatToken.ColourWindow2 = FormatToken.ColourWindow2) :=
  ⟨by decide,
    (C9_writeLine_split 300 ['h', 'e', 'l', 'l', 'o', '\n', 'w', 'o', 'r', 'l', 'd']
        FormatToken.ColourWindow2 emptyState (by decide)).2⟩

/-! Claim C10. -/

/-- Claim C10: below the cap, `WriteLine` appends exactly
`newlineCount + 1` lines (so never zero); the empty string appends one line
holding only the colour codepoint (empty payload), and an input ending in a
newline appends a final line holding only the colour codepoint (empty
payload) after the last newline. -/
theorem C10_writeLine_count (MAX : Nat) (inp : Str) (tok : FormatToken) (s : ConsoleState)
    (h : s.consoleLines.length + (splitNL inp).length ≤ MAX) :
    (WriteLine MAX inp tok s).consoleLines.length
        = s.consoleLines.length + (inp.count '\n' + 1) ∧
    (inp = [] →
      (WriteLine MAX inp tok s).consoleLines = s.consoleLines ++ [colourCodepoint tok]) ∧
    (∀ ys : Str, inp = ys ++ ['\n'] →
      (WriteLine MAX inp tok s).consoleLines.getLast? = some (colourCodepoint tok)) := by
  have hlen :
      (s.consoleLines ++ (splitNL inp).map (fun seg => colourCodepoint tok ++ seg)).length
        ≤ MAX := by
    simp only [List.length_append, List.length_map]
    exact h
  have hmain : (WriteLine MAX inp tok s).consoleLines =
      s.consoleLines ++ (splitNL inp).map (fun seg => colourCodepoint tok ++ seg) := by
    rw [WriteLine_eq]
    exact takeLast_eq_self _ _ hlen
  refine ⟨?_, ?_, ?_⟩
  · rw [hmain]
    simp [length_splitNL]
  · intro h0
    subst h0
    rw [hmain]
    simp [splitNL]
  · intro ys hys
    subst hys
    rw [hmain, splitNL_append_newline, List.map_append, ← List.append_assoc]
    simp

/-- Claim C10 witness: writing `"a\n"` with the default colour appends the
line `"a"` and one trailing empty line. -/
theorem C10_writeLine_count_witness :
    (WriteLine 300 ['a', '\n'] FormatToken.ColourWindow2 emptyState).consoleLines
        = [['a'], []] ∧
    (WriteLine 300 ['a', '\n'] FormatToken.ColourWindow2 emptyState).consoleLines.getLast?
        = some (colourCodepoint FormatToken.ColourWindow2) :=
  ⟨by decide,
    (C10_writeLine_count 300 ['a', '\n'] FormatToken.ColourWindow2 emptyState
        (by decide)).2.2 ['a'] rfl⟩

/-! Claim C3. -/

theorem takeLast_idem (n : Nat) (l : List α) : takeLast n (takeLast n l) = takeLast n l := by
  have h := takeLast_append_takeLast n l ([] : List α)
  simpa using h

/-- The scrollback lines appended by a sequence of `WriteLine` calls, in
order. -/
def appendedSegs : List (Str × FormatToken) → List Str
  | [] => []
  | w :: ws => (splitNL w.1).map (fun seg => colourCodepoint w.2 ++ seg) ++ appendedSegs ws

/-- Folding `WriteLine` over a list of writes keeps exactly the last `MAX`
of all lines ever present, provided the start state is already capped. -/
theorem writeFold_lines (MAX : Nat) :
    ∀ (ws : List (Str × FormatToken)) (s : ConsoleState),
      takeLast MAX s.consoleLines = s.consoleLines →
      (ws.foldl (fun st w => WriteLine MAX w.1 w.2 st) s).consoleLines =
        takeLast MAX (s.consoleLines ++ appendedSegs ws) := by
  intro ws
  induction ws with
  | nil =>
    intro s hfix
    simpa [appendedSegs] using hfix.symm
  | cons w ws ih =>
    intro s hfix
    simp only [List.foldl_cons, appendedSegs]
    have hs' : (WriteLine MAX w.1 w.2 s).consoleLines =
        takeLast MAX
          (s.consoleLines ++ (splitNL w.1).map (fun seg => colourCodepoint w.2 ++ seg)) := by
      rw [WriteLine_eq]
    have hfix' : takeLast MAX (WriteLine MAX w.1 w.2 s).consoleLines =
        (WriteLine MAX w.1 w.2 s).consoleLines := by
      rw [hs', takeLast_idem]
    rw [ih (WriteLine MAX w.1 w.2 s) hfix', hs', takeLast_append_takeLast,
      List.append_assoc]

/-- Claim C3: for every sequence of writes starting from a capped state, the
scrollback never exceeds `MAX` lines, and the lines retained are exactly the
last `MAX` of all lines ever appended, in their original order (overflow
removes exactly the excess from the front). -/
theorem C3_lineBuffer_cap (MAX : Nat) (ws : List (Str × FormatToken)) (s : ConsoleState)
    (h0 : s.consoleLines.length ≤ MAX) :
    (ws.foldl (fun st w => WriteLine MAX w.1 w.2 st) s).consoleLines.length ≤ MAX ∧
    (ws.foldl (fun st w => WriteLine MAX w.1 w.2 st) s).consoleLines =
      takeLast MAX (s.consoleLines ++ appendedSegs ws) := by
  have hmain := writeFold_lines MAX ws s (takeLast_eq_self _ _ h0)
  refine ⟨?_, hmain⟩
  rw [hmain, length_takeLast]
  omega

/-- Claim C3 witness: with a cap of 2, writing `"a\nb"` then `"c"` leaves
exactly the two most recent lines `"b"`, `"c"`. -/
theorem C3_lineBuffer_cap_witness :
    (([(['a', '\n', 'b'], FormatToken.ColourWindow2),
        (['c'], FormatToken.ColourWindow2)] : List (Str × FormatToken)).foldl
          (fun st w => WriteLine 2 w.1 w.2 st) emptyState).consoleLines = [['b'], ['c']] ∧
    (([(['a', '\n', 'b'], FormatToken.ColourWindow2),
        (['c'], FormatToken.ColourWindow2)] : List (Str × FormatToken)).foldl
          (fun st w => WriteLine 2 w.1 w.2 st) emptyState).consoleLines.length ≤ 2 :=
  ⟨by decide,
    (C3_lineBuffer_cap 2
        [(['a', '\n', 'b'], FormatToken.ColourWindow2),
          (['c'], FormatToken.ColourWindow2)] emptyState (by decide)).1⟩

/-! Claim C5. -/

/-- Replacing the scroll offset with a value inside the bound yields a state
satisfying the invariant. -/
theorem scrollInv_update_pos (lh : Int) (s : ConsoleState) (x : Int) (h0 : 0 ≤ x)
    (h1 : x ≤ max 0 ((s.consoleLines.length : Int) - GetNumVisibleLines lh s)) :
    scrollInv lh { s with consoleScrollPos := x } := by
  have hgeom : GetNumVisibleLines lh { s with consoleScrollPos := x } =
      GetNumVisibleLines lh s :=
    GetNumVisibleLines_eq_of_geom lh rfl rfl
  constructor
  · exact h0
  · simpa [hgeom] using h1

/-- The invariant transfers to any state with the same offset and geometry
and at least as many scrollback lines. -/
theorem scrollInv_of_le (lh : Int) (s t : ConsoleState)
    (hpos : t.consoleScrollPos = s.consoleScrollPos)
    (hgeom1 : t.consoleTopLeftY = s.consoleTopLeftY)
    (hgeom2 : t.consoleBottomRightY = s.consoleBottomRightY)
    (hlen : s.consoleLines.length ≤ t.consoleLines.length)
    (h : scrollInv lh s) : scrollInv lh t := by
  obtain ⟨h1, h2⟩ := h
  constructor
  · rw [hpos]
    exact h1
  · rw [hpos, GetNumVisibleLines_eq_of_geom lh hgeom1 hgeom2]
    have hc : ((s.consoleLines.length : Int)) ≤ (t.consoleLines.length : Int) := by
      exact_mod_cast hlen
    omega

/-- One `Scroll` call preserves the scroll-offset invariant. -/
theorem Scroll_preserves_inv (lh d : Int) (s : ConsoleState) (h : scrollInv lh s) :
    scrollInv lh (Scroll lh d s) := by
  unfold Scroll
  dsimp only []
  split
  · rename_i hgt
    apply scrollInv_update_pos
    · exact le_min (by omega) (le_max_left _ _)
    · exact le_trans (min_le_left _ _) (le_max_right _ _)
  · exact h

/-- Claim C5: every sequence of `Scroll` calls preserves
`0 ≤ scrollOffset ≤ max 0 (totalLines − visibleLineCount())`; the offset can
never go negative or exceed the history bound. -/
theorem C5_scroll_clamp (lh : Int) (deltas : List Int) (s : ConsoleState)
    (h : scrollInv lh s) :
    scrollInv lh (deltas.foldl (fun st d => Scroll lh d st) s) := by
  induction deltas generalizing s with
  | nil => simpa using h
  | cons d ds ih =>
    simp only [List.foldl_cons]
    exact ih (Scroll lh d s) (Scroll_preserves_inv lh d s h)

/-- Claim C5 witness: a concrete scrolled console (40 lines, height 322,
line height 10, offset 5) stays within bounds under a scroll-up of 3
followed by a huge scroll-down. -/
theorem C5_scroll_clamp_witness :
    scrollInv 10
      ([3, -100].foldl (fun st d => Scroll 10 d st)
        { emptyState with
            consoleLines := List.replicate 40 []
            consoleBottomRightY := 322
            consoleScrollPos := 5 }) :=
  C5_scroll_clamp 10 [3, -100]
    { emptyState with
        consoleLines := List.replicate 40 []
        consoleBottomRightY := 322
        consoleScrollPos := 5 }
    (by constructor <;> decide)

/-! Claim C6. -/

/-- Claim C6: a write that overflows the cap drops the oldest lines down to
exactly `MAX` and leaves the scroll offset unchanged, which still lies in
`[0, max 0 (totalLines − visibleLineCount())]` because the retained line
count is at least the old one. -/
theorem C6_overflow_scroll (MAX : Nat) (lh : Int) (inp : Str) (tok : FormatToken)
    (s : ConsoleState) (hlen : s.consoleLines.length ≤ MAX)
    (hover : MAX < s.consoleLines.length + (splitNL inp).length)
    (hinv : scrollInv lh s) :
    (WriteLine MAX inp tok s).consoleLines.length = MAX ∧
    (WriteLine MAX inp tok s).consoleScrollPos = s.consoleScrollPos ∧
    scrollInv lh (WriteLine MAX inp tok s) := by
  rw [WriteLine_eq]
  have hl : (takeLast MAX
      (s.consoleLines ++ (splitNL inp).map (fun seg => colourCodepoint tok ++ seg))).length
        = MAX := by
    rw [length_takeLast]
    simp only [List.length_append, List.length_map]
    omega
  refine ⟨hl, rfl, ?_⟩
  exact scrollInv_of_le lh s _ rfl rfl rfl (by simpa [hl] using hlen) hinv

/-- Claim C6 witness: cap 3, three retained lines, one more written — the
excess is dropped, the offset is untouched and still in range. -/
theorem C6_overflow_scroll_witness :
    (WriteLine 3 ['x'] FormatToken.ColourWindow2
        { emptyState with consoleLines := [[], [], []] }).consoleLines.length = 3 ∧
    (WriteLine 3 ['x'] FormatToken.ColourWindow2
        { emptyState with consoleLines := [[], [], []] }).consoleScrollPos =
      ({ emptyState with consoleLines := [[], [], []] } : ConsoleState).consoleScrollPos ∧
    scrollInv 10 (WriteLine 3 ['x'] FormatToken.ColourWindow2
        { emptyState with consoleLines := [[], [], []] }) :=
  C6_overflow_scroll 3 10 ['x'] FormatToken.ColourWindow2
    { emptyState with consoleLines := [[], [], []] }
    (by decide) (by decide) (by constructor <;> decide)

/-! Claim C4. -/

/-- One `HistoryAdd` keeps the last `N` of all entries, stays within
capacity, and leaves the recall cursor at the post-append length. -/
theorem HistoryAdd_step (N : Nat) (hN : 0 < N) (c : Str) (s : ConsoleState)
    (h : s.consoleHistory.length ≤ N) :
    (HistoryAdd N c s).consoleHistory = takeLast N (s.consoleHistory ++ [c]) ∧
    (HistoryAdd N c s).consoleHistory.length ≤ N ∧
    (HistoryAdd N c s).consoleHistoryIndex = (HistoryAdd N c s).consoleHistory.length := by
  unfold HistoryAdd
  dsimp only []
  by_cases hc : N ≤ s.consoleHistory.length
  · have hlen : s.consoleHistory.length = N := le_antisymm h hc
    rw [if_pos hc]
    refine ⟨?_, ?_, ?_⟩
    · unfold takeLast
      rw [List.length_append]
      have h1 : s.consoleHistory.length + [c].length - N = 1 := by simp [hlen]
      rw [h1, List.drop_append_of_le_length (by omega)]
    · simp
      omega
    · simp
  · rw [if_neg hc]
    refine ⟨?_, ?_, ?_⟩
    · exact (takeLast_eq_self _ _ (by simp; omega)).symm
    · simp
      omega
    · simp

/-- Folding `HistoryAdd` over a command list keeps the last `N` of all
entries ever added, in order, with the cursor at the length afterwards. -/
theorem HistoryAdd_fold (N : Nat) (hN : 0 < N) :
    ∀ (cmds : List Str) (s : ConsoleState), s.consoleHistory.length ≤ N →
      (cmds.foldl (fun st c => HistoryAdd N c st) s).consoleHistory =
          takeLast N (s.consoleHistory ++ cmds) ∧
      (cmds.foldl (fun st c => HistoryAdd N c st) s).consoleHistory.length ≤ N ∧
      (cmds ≠ [] →
        (cmds.foldl (fun st c => HistoryAdd N c st) s).consoleHistoryIndex =
          (cmds.foldl (fun st c => HistoryAdd N c st) s).consoleHistory.length) := by
  intro cmds
  induction cmds with
  | nil =>
    intro s h
    refine ⟨?_, h, by simp⟩
    rw [List.append_nil]
    exact (takeLast_eq_self _ _ h).symm
  | cons c cs ih =>
    intro s h
    simp only [List.foldl_cons]
    obtain ⟨h1, h2, h3⟩ := HistoryAdd_step N hN c s h
    obtain ⟨g1, g2, g3⟩ := ih (HistoryAdd N c s) h2
    refine ⟨?_, g2, ?_⟩
    · rw [g1, h1, takeLast_append_takeLast, List.append_assoc]
      simp
    · intro _
      cases cs with
      | nil => simpa using h3
      | cons c' cs' => exact g3 (by simp)

/-- Claim C4: from an empty ring, adding any command sequence retains at
most `N` entries, namely the `N` most recently added ones in insertion
order, and the recall cursor ends at the post-append length. -/
theorem C4_history_ring (N : Nat) (hN : 0 < N) (cmds : List Str) (s : ConsoleState)
    (h0 : s.consoleHistory = []) (h1 : s.consoleHistoryIndex = 0) :
    (cmds.foldl (fun st c => HistoryAdd N c st) s).consoleHistory = takeLast N cmds ∧
    (cmds.foldl (fun st c => HistoryAdd N c st) s).consoleHistory.length ≤ N ∧
    (cmds.foldl (fun st c => HistoryAdd N c st) s).consoleHistoryIndex =
      (cmds.foldl (fun st c => HistoryAdd N c st) s).consoleHistory.length := by
  have h : s.consoleHistory.length ≤ N := by
    rw [h0]
    simp
  obtain ⟨g1, g2, g3⟩ := HistoryAdd_fold N hN cmds s h
  rw [h0] at g1
  simp only [List.nil_append] at g1
  refine ⟨g1, g2, ?_⟩
  cases cmds with
  | nil =>
    simp only [List.foldl_nil]
    rw [h0, h1]
    simp
  | cons c cs => exact g3 (by simp)

/-- Claim C4 witness: the spec scenario — capacity 3, add `"a"`, `"b"`,
`"c"`, `"d"` — leaves `["b", "c", "d"]` with the cursor at 3. -/
theorem C4_history_ring_witness :
    ((([['a'], ['b'], ['c'], ['d']] : List Str).foldl
          (fun st c => HistoryAdd 3 c st) emptyState).consoleHistory =
        [['b'], ['c'], ['d']] ∧
      (([['a'], ['b'], ['c'], ['d']] : List Str).foldl
          (fun st c => HistoryAdd 3 c st) emptyState).consoleHistoryIndex = 3) ∧
    (([['a'], ['b'], ['c'], ['d']] : List Str).foldl
        (fun st c => HistoryAdd 3 c st) emptyState).consoleHistory.length ≤ 3 :=
  ⟨by decide,
    (C4_history_ring 3 (by decide) [['a'], ['b'], ['c'], ['d']] emptyState rfl rfl).2.1⟩

/-! Claim C7. -/

/-- Iterating `HistoryPrevious` from the fresh-line cursor position walks
the cursor back without touching the ring. -/
theorem prevIter (N MAX : Nat) (lh : Int) (mw : Str → Int) :
    ∀ (k : Nat) (s : ConsoleState),
      s.consoleHistoryIndex = s.consoleHistory.length →
      k ≤ s.consoleHistory.length →
      ((Input N MAX lh mw ConsoleInput.HistoryPrevious)^[k] s).consoleHistory =
          s.consoleHistory ∧
      ((Input N MAX lh mw ConsoleInput.HistoryPrevious)^[k] s).consoleHistoryIndex =
          s.consoleHistory.length - k := by
  intro k
  induction k with
  | zero =>
    intro s h1 h2
    constructor
    · simp
    · simpa using h1
  | succ k ih =>
    intro s h1 h2
    obtain ⟨g1, g2⟩ := ih s h1 (by omega)
    rw [Function.iterate_succ_apply']
    have hpos :
        0 < ((Input N MAX lh mw ConsoleInput.HistoryPrevious)^[k] s).consoleHistoryIndex := by
      rw [g2]
      omega
    simp only [Input]
    rw [if_pos hpos]
    constructor
    · simpa using g1
    · dsimp only
      omega

/-- Iterating `HistoryNext` exactly up to and past the newest entry lands
on the fresh-line state with an empty edit line. -/
theorem nextIter (N MAX : Nat) (lh : Int) (mw : Str → Int) :
    ∀ (k : Nat) (s : ConsoleState),
      s.consoleHistoryIndex + (k + 1) = s.consoleHistory.length →
      ((Input N MAX lh mw ConsoleInput.HistoryNext)^[k + 1] s).consoleHistory =
          s.consoleHistory ∧
      ((Input N MAX lh mw ConsoleInput.HistoryNext)^[k + 1] s).consoleHistoryIndex =
          ((Input N MAX lh mw ConsoleInput.HistoryNext)^[k + 1] s).consoleHistory.length ∧
      ((Input N MAX lh mw ConsoleInput.HistoryNext)^[k + 1] s).consoleCurrentLine = [] := by
  intro k
  induction k with
  | zero =>
    intro s h
    rw [Function.iterate_one]
    simp only [Input]
    have hcond : ¬ (s.consoleHistoryIndex < s.consoleHistory.length - 1) := by omega
    rw [if_neg hcond]
    refine ⟨?_, ?_, ?_⟩ <;> simp [ClearInput]
  | succ k ih =>
    intro s h
    rw [Function.iterate_succ_apply]
    have hcond : s.consoleHistoryIndex < s.consoleHistory.length - 1 := by omega
    simp only [Input]
    rw [if_pos hcond]
    apply ih
    show s.consoleHistoryIndex + 1 + (k + 1) = s.consoleHistory.length
    omega

/-- Claim C7: from the fresh-line state (cursor at length, empty edit
line), `k` times `HistoryPrevious` followed by `k` times `HistoryNext`
(for `k ≤ history length`) returns to the fresh-line state with the edit
line empty. -/
theorem C7_recall_roundtrip (N MAX : Nat) (lh : Int) (mw : Str → Int) (k : Nat)
    (s : ConsoleState) (hk : k ≤ s.consoleHistory.length)
    (hidx : s.consoleHistoryIndex = s.consoleHistory.length)
    (hline : s.consoleCurrentLine = []) :
    ((Input N MAX lh mw ConsoleInput.HistoryNext)^[k]
        ((Input N MAX lh mw ConsoleInput.HistoryPrevious)^[k] s)).consoleHistoryIndex =
      ((Input N MAX lh mw ConsoleInput.HistoryNext)^[k]
        ((Input N MAX lh mw ConsoleInput.HistoryPrevious)^[k] s)).consoleHistory.length ∧
    ((Input N MAX lh mw ConsoleInput.HistoryNext)^[k]
        ((Input N MAX lh mw ConsoleInput.HistoryPrevious)^[k] s)).consoleCurrentLine = [] := by
  cases k with
  | zero =>
    constructor
    · simpa using hidx
    · simpa using hline
  | succ k =>
    obtain ⟨g1, g2⟩ := prevIter N MAX lh mw (k + 1) s hidx hk
    obtain ⟨f1, f2, f3⟩ := nextIter N MAX lh mw k
      ((Input N MAX lh mw ConsoleInput.HistoryPrevious)^[k + 1] s)
      (by rw [g1, g2]; omega)
    exact ⟨f2, f3⟩

/-- A fresh-line console with two history entries, used to witness the
recall round-trip. -/
def recallState : ConsoleState :=
  { emptyState with consoleHistory := [['a'], ['b']], consoleHistoryIndex := 2 }

/-- Claim C7 witness: two entries, two times previous then two times next,
back to the fresh line with an empty edit line. -/
theorem C7_recall_roundtrip_witness :
    ((Input 64 300 10 (fun _ => 0) ConsoleInput.HistoryNext)^[2]
        ((Input 64 300 10 (fun _ => 0) ConsoleInput.HistoryPrevious)^[2]
          recallState)).consoleHistoryIndex =
      ((Input 64 300 10 (fun _ => 0) ConsoleInput.HistoryNext)^[2]
        ((Input 64 300 10 (fun _ => 0) ConsoleInput.HistoryPrevious)^[2]
          recallState)).consoleHistory.length ∧
    ((Input 64 300 10 (fun _ => 0) ConsoleInput.HistoryNext)^[2]
        ((Input 64 300 10 (fun _ => 0) ConsoleInput.HistoryPrevious)^[2]
          recallState)).consoleCurrentLine = [] :=
  C7_recall_roundtrip 64 300 10 (fun _ => 0) 2 recallState (by decide) (by decide)
    (by decide)

/-! Claims C1 and C8. -/

theorem ScrollToEnd_executed (lh : Int) (u : ConsoleState) :
    (ScrollToEnd lh u).executed = u.executed := by
  unfold ScrollToEnd
  dsimp only
  split <;> rfl

theorem ScrollToEnd_consoleLines (lh : Int) (u : ConsoleState) :
    (ScrollToEnd lh u).consoleLines = u.consoleLines := by
  unfold ScrollToEnd
  dsimp only
  split <;> rfl

theorem ScrollToEnd_topY (lh : Int) (u : ConsoleState) :
    (ScrollToEnd lh u).consoleTopLeftY = u.consoleTopLeftY := by
  unfold ScrollToEnd
  dsimp only
  split <;> rfl

theorem ScrollToEnd_botY (lh : Int) (u : ConsoleState) :
    (ScrollToEnd lh u).consoleBottomRightY = u.consoleBottomRightY := by
  unfold ScrollToEnd
  dsimp only
  split <;> rfl

/-- `ScrollToEnd` computes the end offset from the current line count. -/
theorem ScrollToEnd_scrollPos (lh : Int) (u : ConsoleState) :
    (ScrollToEnd lh u).consoleScrollPos =
      if GetNumVisibleLines lh u = 0 then 0
      else max 0 ((u.consoleLines.length : Int) - GetNumVisibleLines lh u) := by
  unfold ScrollToEnd
  dsimp only
  split <;> rfl

/-- `ScrollToEnd` changes nothing but the scroll offset. -/
theorem ScrollToEnd_frame (lh : Int) (u : ConsoleState) :
    ScrollToEnd lh u = { u with consoleScrollPos := (ScrollToEnd lh u).consoleScrollPos } := by
  unfold ScrollToEnd
  dsimp only
  split <;> rfl

/-- Claim C1: for a non-empty current line, `LineExecute` is exactly the
composition — in this order — of the history add, the prompt-echo append,
the external executor invocation, the fresh prompt write, the edit-buffer
clear (with caret refresh, as in the source) and the final scroll-to-end.
In particular the executor receives the submitted line, the last scrollback
line afterwards is the fresh prompt, and the final scroll offset is
computed from the line count that already includes the fresh prompt line —
the scroll-to-end happens after the prompt append. -/
theorem C1_lineExecute_order (N MAX : Nat) (hMAX : 0 < MAX) (lh : Int) (mw : Str → Int)
    (s : ConsoleState) (h : s.consoleCurrentLine ≠ []) :
    Input N MAX lh mw ConsoleInput.LineExecute s =
      ScrollToEnd lh (RefreshCaret mw 0 (ClearInput (WritePrompt MAX (ExecuteCmd
        s.consoleCurrentLine (AppendToLastLine s.consoleCurrentLine
          (HistoryAdd N s.consoleCurrentLine s)))))) ∧
    (Input N MAX lh mw ConsoleInput.LineExecute s).executed =
      s.executed ++ [s.consoleCurrentLine] ∧
    (Input N MAX lh mw ConsoleInput.LineExecute s).consoleLines.getLast? =
      some ['>', ' '] ∧
    (Input N MAX lh mw ConsoleInput.LineExecute s).consoleScrollPos =
      (if GetNumVisibleLines lh (Input N MAX lh mw ConsoleInput.LineExecute s) = 0 then 0
        else max 0
          (((Input N MAX lh mw ConsoleInput.LineExecute s).consoleLines.length : Int) -
            GetNumVisibleLines lh (Input N MAX lh mw ConsoleInput.LineExecute s))) := by
  have e1 : Input N MAX lh mw ConsoleInput.LineExecute s =
      ScrollToEnd lh (RefreshCaret mw 0 (ClearInput (WritePrompt MAX (ExecuteCmd
        s.consoleCurrentLine (AppendToLastLine s.consoleCurrentLine
          (HistoryAdd N s.consoleCurrentLine s)))))) := by
    simp only [Input]
    rw [if_pos h]
    rfl
  have hsplit : (splitNL ['>', ' ']).map
      (fun seg => colourCodepoint FormatToken.ColourWindow2 ++ seg) = [['>', ' ']] := by
    decide
  refine ⟨e1, ?_, ?_, ?_⟩
  · rw [e1, ScrollToEnd_executed]
    simp only [RefreshCaret, ClearInput, WritePrompt, WriteLine_eq, ExecuteCmd,
      AppendToLastLine, HistoryAdd]
  · rw [e1, ScrollToEnd_consoleLines]
    simp only [RefreshCaret, ClearInput, WritePrompt, WriteLine_eq]
    rw [hsplit]
    exact takeLast_concat_getLast? MAX hMAX _ _
  · rw [e1, ScrollToEnd_scrollPos,
      GetNumVisibleLines_eq_of_geom lh (ScrollToEnd_topY lh _) (ScrollToEnd_botY lh _),
      ScrollToEnd_consoleLines]

/-- A small open console: one prompt line, `"hi"` typed, height 322. -/
def typedState : ConsoleState :=
  { emptyState with
      consoleLines := [['>', ' ']]
      consoleCurrentLine := ['h', 'i']
      consoleBottomRightY := 322 }

/-- Claim C1 witness: submitting `"hi"` records the executor call and ends
with a fresh prompt as the last scrollback line. -/
theorem C1_lineExecute_order_witness :
    (Input 64 300 10 (fun _ => 0) ConsoleInput.LineExecute typedState).executed =
      typedState.executed ++ [typedState.consoleCurrentLine] ∧
    (Input 64 300 10 (fun _ => 0) ConsoleInput.LineExecute typedState).consoleLines.getLast? =
      some ['>', ' '] :=
  ⟨(C1_lineExecute_order 64 300 (by decide) 10 (fun _ => 0) typedState (by decide)).2.1,
    (C1_lineExecute_order 64 300 (by decide) 10 (fun _ => 0) typedState (by decide)).2.2.1⟩

/-- A console scrolled to the top of 40 scrollback lines, with an empty
edit line. -/
def scrolledState : ConsoleState :=
  { emptyState with
      consoleLines := List.replicate 40 []
      consoleBottomRightY := 322 }

/-- Claim C8 is false as stated: with an empty current line, `LineExecute`
is not a no-op on the whole state — the source still calls `ScrollToEnd`
(it sits after the emptiness check), which moves the scroll offset of this
scrolled-up console from 0 to 11. -/
theorem C8_counterexample :
    ¬ (Input 64 300 10 (fun _ => 0) ConsoleInput.LineExecute scrolledState =
        scrolledState) := by
  decide

/-- Claim C8 (amended): with an empty current line, `LineExecute` adds no
history entry, invokes no executor and writes no prompt line; it reduces to
`ScrollToEnd`, i.e. every state component is unchanged except the scroll
offset, which is re-snapped to the end of the scrollback. -/
theorem C8_emptyLine_amended (N MAX : Nat) (lh : Int) (mw : Str → Int) (s : ConsoleState)
    (h : s.consoleCurrentLine = []) :
    Input N MAX lh mw ConsoleInput.LineExecute s = ScrollToEnd lh s ∧
    ScrollToEnd lh s = { s with consoleScrollPos := (ScrollToEnd lh s).consoleScrollPos } := by
  constructor
  · simp only [Input]
    rw [if_neg (by simp [h])]
  · exact ScrollToEnd_frame lh s

/-- Claim C8 witness: the scrolled-up console above — the empty submission
is exactly a scroll-to-end. -/
theorem C8_emptyLine_amended_witness :
    Input 64 300 10 (fun _ => 0) ConsoleInput.LineExecute scrolledState =
      ScrollToEnd 10 scrolledState :=
  (C8_emptyLine_amended 64 300 10 (fun _ => 0) scrolledState rfl).1

end InGameConsole
